import Mathlib

/-!
Verification of the nanobot agent runtime against its design specification.

The Python modules under `nanobot/agent/` are shallowly embedded as Lean
functions: strings are `String` (Python `len` counts code points, matching
`String.length`), machine integers are `Int`/`Nat`, external collaborators
(the LLM provider, the SQLite ranking engine, the JSON codec, the clock and
the file system) are explicit oracle parameters, and fallible calls return
`Except`/`Option`.  Each embedded definition mirrors one Python function.
-/

namespace Nanobot

/-! ## Python string primitives (ASCII fragment) -/

/-- ASCII whitespace, as recognised by Python's default `str.strip`,
`str.lstrip` and the regex class `\s` on ASCII text. -/
def pyIsSpace (c : Char) : Bool :=
  c == ' ' || c == '\t' || c == '\n' || c == '\x0d' || c == '\x0b' || c == '\x0c'

/-- Python `hay.startswith(needle)` on character lists. -/
def pyStartsWith : List Char → List Char → Bool
  | _, [] => true
  | [], _ :: _ => false
  | c :: cs, d :: ds => c == d && pyStartsWith cs ds

/-- Python `needle in hay` (contiguous substring test) on character lists. -/
def pyContains : List Char → List Char → Bool
  | [], needle => needle.isEmpty
  | c :: cs, needle => pyStartsWith (c :: cs) needle || pyContains cs needle

/-- Python `s.upper()` (ASCII fragment: `Char.toUpper` maps `a`-`z`). -/
def pyUpper (s : String) : String :=
  (s.data.map Char.toUpper).asString

/-- Python `s.lstrip()` (ASCII whitespace fragment). -/
def pyLStripData (l : List Char) : List Char :=
  l.dropWhile pyIsSpace

/-- Python `s.strip()` (ASCII whitespace fragment): drop whitespace from
both ends. -/
def pyStripData (l : List Char) : List Char :=
  ((l.dropWhile pyIsSpace).reverse.dropWhile pyIsSpace).reverse

/-- Python `s.strip()` on `String`. -/
def pyStrip (s : String) : String :=
  (pyStripData s.data).asString

/-- Python slice `l[:i]` where `i` may be negative (counted from the end). -/
def pySliceTo (l : List Char) (i : Int) : List Char :=
  if 0 ≤ i then l.take i.toNat else l.take (l.length - (-i).toNat)

/-- Python slice `s[:i]` on `String`. -/
def pyTakeTo (s : String) (i : Int) : String :=
  (pySliceTo s.data i).asString

/-! ## `nanobot/agent/truncation.py` -/

/-- One step of the regex `\x1b\[[0-9;]*[a-zA-Z]` after the leading
`ESC [`: consume a run of digits and semicolons, then one ASCII letter.
Returns the characters after the escape sequence, or `none` when the
pattern does not match here. -/
def ansiTail : List Char → Option (List Char)
  | [] => none
  | c :: cs =>
    if c.isDigit || c == ';' then ansiTail cs
    else if c.isAlpha then some cs
    else none

/-- Left-to-right, non-overlapping removal of ANSI escape sequences, i.e.
`re.sub(r'\x1b\[[0-9;]*[a-zA-Z]', '', result)`.  The fuel argument is the
length of the list; the fuel-0 fallback is never reached from `stripAnsi`. -/
def stripAnsiFuel : Nat → List Char → List Char
  | 0, l => l
  | _ + 1, [] => []
  | fuel + 1, c :: cs =>
    if c == '\x1b' && cs.head? == some '\x5b' then
      match ansiTail cs.tail with
      | some rest => stripAnsiFuel fuel rest
      | none => c :: stripAnsiFuel fuel cs
    else c :: stripAnsiFuel fuel cs

/-- `re.sub(r'\x1b\[[0-9;]*[a-zA-Z]', '', s)` from `truncate_tool_result`. -/
def stripAnsi (s : String) : String :=
  (stripAnsiFuel s.data.length s.data).asString

/-- The default tool-output budget `DEFAULT_MAX_CHARS = 3000`. -/
def DEFAULT_MAX_CHARS : Int := 3000

/-- The guard `stripped and stripped[0] in ('{', '[')` of
`truncate_tool_result`, with `stripped = clean.lstrip()`. -/
def jsonDetect (clean : String) : Bool :=
  let stripped := pyLStripData clean.data
  !stripped.isEmpty && (stripped.head? == some '\x7b' || stripped.head? == some '\x5b')

/-- The truncation sentinel appended to an over-budget pretty-printed JSON
payload. -/
def jsonTruncNotice (budget : Int) (total : Nat) : String :=
  "\n\n... [JSON truncated - showed " ++ toString budget ++ " of " ++ Nat.repr total
    ++ " chars. Do NOT re-run this tool to see more.]"

/-- The truncation sentinel appended to over-budget plain text. -/
def textTruncNotice (budget : Int) (total : Nat) : String :=
  "\n\n... [truncated - showed " ++ toString budget ++ " of " ++ Nat.repr total
    ++ " chars. Do NOT re-run this tool to see more.]"

/-- The over-budget branch of `truncate_tool_result` (everything after the
`len(clean) <= max_chars` early return).  `jsonPretty` is the oracle for
`json.dumps(json.loads(clean), indent=2, ensure_ascii=False)`: `none` models
a `json.JSONDecodeError`/`ValueError` from `json.loads`. -/
def truncateOversize (jsonPretty : String → Option String)
    (clean : String) (maxChars : Int) : String :=
  match (if jsonDetect clean then jsonPretty clean else none) with
  | some pretty =>
    if (pretty.length : Int) ≤ maxChars then pretty
    else
      let budget := maxChars - 120
      pyTakeTo pretty budget ++ jsonTruncNotice budget pretty.length
  | none =>
    let budget := maxChars - 100
    pyTakeTo clean budget ++ textTruncNotice budget clean.length

/-- `truncate_tool_result(result, max_chars)` from
`nanobot/agent/truncation.py`. -/
def truncateToolResult (jsonPretty : String → Option String)
    (result : String) (maxChars : Int) : String :=
  let clean := stripAnsi result
  if (clean.length : Int) ≤ maxChars then clean
  else truncateOversize jsonPretty clean maxChars

/-! ### Concrete inputs used by counterexamples and witnesses -/

/-- The compact JSON text `{"a":1}` (7 characters, far under budget). -/
def jsonInputC3 : String := "\x7b\"a\":1\x7d"

/-- Python's `json.dumps(json.loads('\x7b"a":1\x7d'), indent=2)`. -/
def prettyC3 : String := "\x7b\n  \"a\": 1\n\x7d"

/-- JSON codec oracle, faithful to Python's `json` module on `jsonInputC3`. -/
def jsonPrettyC3 : String → Option String :=
  fun t => if t = jsonInputC3 then some prettyC3 else none

/-- A JSON object text padded with interior spaces: 7 characters total. -/
def paddedJson : String := "\x7b     \x7d"

/-- JSON codec oracle, faithful to Python's `json` module on `paddedJson`
(`json.loads('\x7b     \x7d')` is the empty object, which pretty-prints as
the two characters `\x7b\x7d`). -/
def jsonPrettyPadded : String → Option String :=
  fun t => if t = paddedJson then some "\x7b\x7d" else none

/-- A plain-text tool result of 3001 characters (over the default budget). -/
def longPlain : String := (List.replicate 3001 'a').asString

/-- A short string wrapped in ANSI colour escape sequences. -/
def ansiSample : String := "\x1b[31mred\x1b[0m"

/-! ## Messages and provider responses -/

/-- One typed part of a multimodal message content list. -/
inductive PyPart where
  | text (s : String)
  | other
deriving DecidableEq

/-- Python message content: either a plain string or a list of typed
parts. -/
inductive PyContent where
  | str (s : String)
  | parts (l : List PyPart)
deriving DecidableEq

/-- A tool-call descriptor dict as built in `_run_agent_loop`
(`id` / `function.name` / `function.arguments`); the serialized arguments
string `json.dumps(tc.arguments)` is kept opaque. -/
structure ToolCallDict where
  id : String
  name : String
  argumentsJson : String
deriving DecidableEq

/-- A chat-history message dict.  Optional keys that Python leaves absent
are modelled by their defaults (`none` / `[]`). -/
structure ChatMsg where
  role : String
  content : PyContent := .str ""
  tool_call_id : Option String := none
  name : Option String := none
  tool_calls : List ToolCallDict := []
  reasoning_content : Option String := none
deriving DecidableEq

/-! ## `nanobot/agent/compaction.py` -/

/-- `estimate_tokens(text)`: `len(text) // 4`. -/
def estimate_tokens (text : String) : Nat := text.length / 4

/-- Per-message token estimate of `estimate_messages_tokens`: string
content directly, multimodal content through its text parts. -/
def contentTokens : PyContent → Nat
  | .str s => estimate_tokens s
  | .parts l => l.foldl (fun acc p => match p with
      | .text s => acc + estimate_tokens s
      | .other => acc) 0

/-- `estimate_messages_tokens(messages)`. -/
def estimate_messages_tokens (messages : List ChatMsg) : Nat :=
  messages.foldl (fun acc m => acc + contentTokens m.content) 0

/-- The text extraction `compact` applies to multimodal content:
join the `text` fields of the text-typed parts with spaces. -/
def partsText (l : List PyPart) : String :=
  String.intercalate " " (l.filterMap fun p => match p with
    | .text s => some s
    | .other => none)

/-- One `role: content` line of the compaction prompt, truncating any
single message body beyond 2000 characters. -/
def formatMsgForCompaction (m : ChatMsg) : String :=
  let content := match m.content with
    | .str s => s
    | .parts l => partsText l
  let content :=
    if 2000 < content.length then pyTakeTo content 2000 ++ "... [truncated]" else content
  m.role ++ ": " ++ content

/-- `COMPACTION_PROMPT.format(previous_summary=..., messages=...)`. -/
def compactionPrompt (previousSummary messagesText : String) : String :=
  "Summarize this conversation history concisely while preserving:\n" ++
  "1. Key decisions made and their reasoning\n" ++
  "2. Important facts, names, dates, and numbers mentioned\n" ++
  "3. User preferences and requests\n" ++
  "4. Pending tasks or commitments\n" ++
  "5. Technical context that may be needed later\n" ++
  "\n" ++
  "Previous summary (if any):\n" ++
  (if previousSummary = "" then "(none)" else previousSummary) ++ "\n" ++
  "\n" ++
  "Messages to summarize:\n" ++
  messagesText ++ "\n" ++
  "\n" ++
  "Write a concise summary (max 500 words) that captures the essential context. " ++
  "Do not include preamble - just the summary."

/-- `MessageCompactor.compact(messages, previous_summary)`.  `chat` is the
provider oracle mapping the prompt to `response.content`
(`Except.error` models a raised provider exception, in which case the
previous summary is returned unchanged).  Every invocation issues exactly
one provider call. -/
def compact (chat : String → Except Unit (Option String))
    (messages : List ChatMsg) (previous_summary : String) : String :=
  let messagesText := String.intercalate "\n" (messages.map formatMsgForCompaction)
  let messagesText :=
    if 20000 < messagesText.length then pyTakeTo messagesText 20000 ++ "\n... [truncated]"
    else messagesText
  match chat (compactionPrompt previous_summary messagesText) with
  | .ok c => pyStrip (c.getD "")
  | .error _ => previous_summary

/-- `EXTRACTION_PROMPT.format(user_message=..., assistant_message=...)`. -/
def extractionPrompt (userMessage assistantMessage : String) : String :=
  "Review this conversation exchange and extract any facts worth remembering " ++
  "long-term. Focus on:\n" ++
  "- User preferences, habits, or personal details shared\n" ++
  "- Decisions made or commitments given\n" ++
  "- Project names, technical choices, or configuration details\n" ++
  "- Anything the user would expect you to remember next time\n" ++
  "\n" ++
  "User: " ++ userMessage ++ "\n" ++
  "\n" ++
  "Assistant: " ++ assistantMessage ++ "\n" ++
  "\n" ++
  "If there are notable facts, respond with a short bullet list (one line per fact). " ++
  "If nothing is worth remembering, respond with exactly: NOTHING"

/-- `MessageCompactor.extract_facts(user_message, assistant_message)`.
Returns the optional facts text together with the number of provider calls
made. -/
def extract_facts (chat : String → Except Unit (Option String))
    (user_message assistant_message : String) : Option String × Nat :=
  if user_message.length < 20 ∧ assistant_message.length < 50 then (none, 0)
  else
    match chat (extractionPrompt (pyTakeTo user_message 3000)
        (pyTakeTo assistant_message 3000)) with
    | .ok c =>
      let result := pyStrip (c.getD "")
      if result = "" ∨ pyContains (pyUpper result).data "NOTHING".data then (none, 1)
      else (some result, 1)
    | .error _ => (none, 1)

/-! ## `AgentLoop._get_compacted_history` (`nanobot/agent/loop.py`) -/

/-- Session compaction metadata: the `compaction_summary` and
`compacted_up_to` entries of `session.metadata`, with the defaults used by
`session.metadata.get`. -/
structure CompactionMeta where
  compaction_summary : String := ""
  compacted_up_to : Nat := 0
deriving DecidableEq

/-- Python list slice `xs[:-k]` for a natural `k` (note `xs[:-0] = []`). -/
def pyDropLast {α : Type} (xs : List α) (k : Nat) : List α :=
  if k = 0 then [] else xs.take (xs.length - k)

/-- Python list slice `xs[-k:]` for a natural `k` (note `xs[-0:] = xs`). -/
def pyLastWindow {α : Type} (xs : List α) (k : Nat) : List α :=
  if k = 0 then xs else xs.drop (xs.length - k)

/-- The synthetic assistant message prepended after compaction. -/
def summaryMsg (summary : String) : ChatMsg :=
  { role := "assistant", content := .str ("[Earlier conversation summary]\n" ++ summary) }

/-- `AgentLoop._get_compacted_history(session)`.  `chat` is the compaction
model oracle, `hasCompactor`/`enabled` the `self._compactor` and
`compaction_config.enabled` guards, `histTrunc` the result of
`session.get_history()` (the recent-window truncation managed by the
session layer), `full` the result of `session.get_full_history()`,
`keep_recent`/`threshold_tokens` the configuration, and `meta` the stored
compaction metadata.  Returns the history to use, the updated (persisted)
metadata, and the number of summarization model calls made. -/
def getCompactedHistory (chat : String → Except Unit (Option String))
    (hasCompactor enabled : Bool) (histTrunc : List ChatMsg)
    (keep_recent threshold_tokens : Nat)
    (full : List ChatMsg) (meta : CompactionMeta) :
    List ChatMsg × CompactionMeta × Nat :=
  if ¬ hasCompactor ∨ ¬ enabled then (histTrunc, meta, 0)
  else if full = [] then ([], meta, 0)
  else if estimate_messages_tokens full < threshold_tokens then (histTrunc, meta, 0)
  else if full.length ≤ keep_recent then (full, meta, 0)
  else
    let old_messages := pyDropLast full keep_recent
    let recent_messages := pyLastWindow full keep_recent
    let prev_summary := meta.compaction_summary
    if old_messages.length ≤ meta.compacted_up_to then
      if prev_summary ≠ "" then (summaryMsg prev_summary :: recent_messages, meta, 0)
      else (recent_messages, meta, 0)
    else
      let summary := compact chat old_messages prev_summary
      (summaryMsg summary :: recent_messages,
        { compaction_summary := summary, compacted_up_to := old_messages.length }, 1)

/-- `n` successive `_get_compacted_history` calls with an unchanged full
history, threading the persisted metadata; returns the final metadata and
the total number of summarization calls. -/
def iterCompactedHistory (chat : String → Except Unit (Option String))
    (hasCompactor enabled : Bool) (histTrunc : List ChatMsg)
    (keep_recent threshold_tokens : Nat) (full : List ChatMsg) :
    Nat → CompactionMeta → CompactionMeta × Nat
  | 0, meta => (meta, 0)
  | n + 1, meta =>
    let r := getCompactedHistory chat hasCompactor enabled histTrunc
      keep_recent threshold_tokens full meta
    let rest := iterCompactedHistory chat hasCompactor enabled histTrunc
      keep_recent threshold_tokens full n r.2.1
    (rest.1, r.2.2 + rest.2)

/-! ## `AgentLoop._run_agent_loop` (`nanobot/agent/loop.py`) -/

/-- A parsed tool call of a provider response. -/
structure ToolCallObj where
  id : String
  name : String
  argumentsJson : String
deriving DecidableEq

/-- A provider chat response. -/
structure LLMResponse where
  content : Option String := none
  tool_calls : List ToolCallObj := []
  reasoning_content : Option String := none
  has_tool_calls : Bool := false
deriving DecidableEq

/-- Python truthiness of `response.content` (`None` and `""` are falsy). -/
def contentTruthy : Option String → Bool
  | none => false
  | some s => !(s == "")

/-- `ContextBuilder.add_assistant_message` (`nanobot/agent/context.py`):
append an assistant message; the `tool_calls` and `reasoning_content` keys
are only set when truthy. -/
def add_assistant_message (messages : List ChatMsg) (content : Option String)
    (tool_calls : List ToolCallDict) (reasoning_content : Option String) : List ChatMsg :=
  messages ++ [{ role := "assistant",
                 content := .str (content.getD ""),
                 tool_calls := tool_calls,
                 reasoning_content := match reasoning_content with
                   | some r => if r = "" then none else some r
                   | none => none }]

/-- `ContextBuilder.add_tool_result` (`nanobot/agent/context.py`). -/
def add_tool_result (messages : List ChatMsg) (tool_call_id : String)
    (tool_name : String) (result : String) : List ChatMsg :=
  messages ++ [{ role := "tool", tool_call_id := some tool_call_id,
                 name := some tool_name, content := .str result }]

/-- `EMPTY_RESPONSE_RETRIES = 2`. -/
def EMPTY_RESPONSE_RETRIES : Nat := 2

/-- The observable outcome of `_run_agent_loop`: the returned text (if
any), the backoff sleeps performed (in seconds, in order), and the number
of provider chat calls made. -/
structure LoopResult where
  result : Option String
  sleeps : List ℚ
  calls : Nat
deriving DecidableEq

/-- A response with no tool calls and falsy content (the "LLM returned
empty" case of `_run_agent_loop`). -/
def isEmptyResponse (r : LLMResponse) : Bool :=
  !r.has_tool_calls && !contentTruthy r.content

/-- The `for iteration in range(1, max_iterations + 1)` body of
`_run_agent_loop`.  `fuel` counts the loop iterations left (the entry point
passes `max_iterations`) and `i` is the 1-based iteration index addressing
the oracles: `chat i` is the provider response of iteration `i`, `execTool`
the Tool-Registry execution oracle, `uniform i` the `random.uniform(0, 1)`
draw if iteration `i` backs off, and `jsonPretty` the JSON codec oracle
used by tool-result truncation. -/
def runLoopFuel (jsonPretty : String → Option String) (chat : Nat → LLMResponse)
    (execTool : String → String → String) (uniform : Nat → ℚ) :
    Nat → Nat → List ChatMsg → Nat → Bool → LoopResult
  | 0, _, _, _, _ => ⟨none, [], 0⟩
  | fuel + 1, i, messages, emptyRetriesLeft, lastUsedDeliveryTool =>
    let response := chat i
    if response.has_tool_calls then
      let lastDeliv := response.tool_calls.any fun tc =>
        tc.name == "message" || tc.name == "spawn"
      let toolCallDicts := response.tool_calls.map fun tc =>
        ({ id := tc.id, name := tc.name, argumentsJson := tc.argumentsJson } : ToolCallDict)
      let messages := add_assistant_message messages response.content
        toolCallDicts response.reasoning_content
      let messages := response.tool_calls.foldl
        (fun acc tc => add_tool_result acc tc.id tc.name
          (truncateToolResult jsonPretty (execTool tc.name tc.argumentsJson) DEFAULT_MAX_CHARS))
        messages
      let r := runLoopFuel jsonPretty chat execTool uniform fuel (i + 1)
        messages emptyRetriesLeft lastDeliv
      ⟨r.result, r.sleeps, r.calls + 1⟩
    else if contentTruthy response.content then
      ⟨response.content, [], 1⟩
    else if lastUsedDeliveryTool then
      ⟨none, [], 1⟩
    else if 0 < emptyRetriesLeft then
      let retryNum := EMPTY_RESPONSE_RETRIES - (emptyRetriesLeft - 1)
      let delay := min ((2 : ℚ) ^ retryNum + uniform i) 10
      let r := runLoopFuel jsonPretty chat execTool uniform fuel (i + 1)
        messages (emptyRetriesLeft - 1) lastUsedDeliveryTool
      ⟨r.result, delay :: r.sleeps, r.calls + 1⟩
    else
      ⟨none, [], 1⟩

/-- `AgentLoop._run_agent_loop(messages)` (the spec's `run_turn` core). -/
def runAgentLoop (jsonPretty : String → Option String) (chat : Nat → LLMResponse)
    (execTool : String → String → String) (uniform : Nat → ℚ)
    (max_iterations : Nat) (messages : List ChatMsg) : LoopResult :=
  runLoopFuel jsonPretty chat execTool uniform max_iterations 1 messages
    EMPTY_RESPONSE_RETRIES false

/-! ## `nanobot/agent/memory_db.py` -/

/-- A row of the `memory_sources` table. -/
structure MemSource where
  source_key : String
  mtime_ns : Int
  updated_at : String
deriving DecidableEq

/-- A row of the `memory_entries` table (the integer rowid is implicit:
list order is insertion order). -/
structure MemEntry where
  source_key : String
  content : String
  content_hash : String
  created_at : String
deriving DecidableEq

/-- The two tables of the memory index database. -/
structure MemDB where
  sources : List MemSource
  entries : List MemEntry
deriving DecidableEq

/-- `SELECT mtime_ns FROM memory_sources WHERE source_key = ?`. -/
def lookupSource (db : MemDB) (key : String) : Option Int :=
  (db.sources.find? fun r => r.source_key == key).map (·.mtime_ns)

/-- `INSERT OR IGNORE INTO memory_entries ...`: append unless a row with
the same `(source_key, content_hash)` already exists. -/
def insertEntryOrIgnore (entries : List MemEntry) (e : MemEntry) : List MemEntry :=
  if entries.any fun e' =>
      e'.source_key == e.source_key && e'.content_hash == e.content_hash
  then entries
  else entries ++ [e]

/-- `INSERT INTO memory_sources ... ON CONFLICT(source_key) DO UPDATE`. -/
def upsertSource (sources : List MemSource) (key : String) (mtime : Int)
    (now : String) : List MemSource :=
  if sources.any fun r => r.source_key == key then
    sources.map fun r =>
      if r.source_key == key then { r with mtime_ns := mtime, updated_at := now } else r
  else sources ++ [⟨key, mtime, now⟩]

/-- Length of the prefix of a whitespace run `w` up to and including its
last newline, if it contains one. -/
def lastNewlineCut (w : List Char) : Option Nat :=
  let r := w.reverse.dropWhile fun c => !(c == '\n')
  if r.isEmpty then none else some r.length

/-- `re.split(r"\n\s*\n+", text)`: scan left to right; a match starts at a
newline whose following whitespace run contains another newline and
extends to the last newline of that run.  Fuel is the list length. -/
def reSplitBlankFuel : Nat → List Char → List Char → List (List Char)
  | 0, acc, _ => [acc.reverse]
  | _ + 1, acc, [] => [acc.reverse]
  | fuel + 1, acc, c :: cs =>
    if c == '\n' then
      match lastNewlineCut (cs.takeWhile pyIsSpace) with
      | some k => acc.reverse :: reSplitBlankFuel fuel [] (cs.drop k)
      | none => reSplitBlankFuel fuel (c :: acc) cs
    else reSplitBlankFuel fuel (c :: acc) cs

/-- `_split_into_chunks(text)`: strip, split on blank-line boundaries,
strip each part, drop parts shorter than 12 characters, cap each part at
1200 characters. -/
def splitIntoChunks (text : String) : List String :=
  let stripped := pyStripData text.data
  let raw := reSplitBlankFuel stripped.length [] stripped
  raw.filterMap fun part =>
    let p := pyStripData part
    if p.isEmpty || p.length < 12 then none
    else some (List.asString (if 1200 < p.length then p.take 1200 else p))

/-- The reindexing path of `index_file` (everything after the mtime
guard): delete this source's rows, split the file text into chunks, insert
each chunk deduplicated by content hash, and upsert the stored mtime. -/
def reindexFile (hash : String → String) (now : String)
    (db : MemDB) (source_key : String) (mtime_ns : Int) (text : String) : MemDB :=
  let entries := db.entries.filter fun e => !(e.source_key == source_key)
  let chunks := if text = "" then [] else splitIntoChunks text
  let entries := chunks.foldl
    (fun acc c => insertEntryOrIgnore acc
      { source_key := source_key, content := c, content_hash := hash c, created_at := now })
    entries
  { sources := upsertSource db.sources source_key mtime_ns now, entries := entries }

/-- `MemoryDB.index_file(source_key, path)`.  `hash` is the SHA-256
oracle, `now` the clock reading, `mtime_ns` the file's current
modification time (`0` when missing/unreadable) and `text` its content
(`""` when missing or unreadable).  Returns the new database state and
whether the file was actually (re)parsed. -/
def index_file (hash : String → String) (now : String)
    (db : MemDB) (source_key : String) (mtime_ns : Int) (text : String) : MemDB × Bool :=
  match lookupSource db source_key with
  | some stored =>
    if stored = mtime_ns then (db, false)
    else (reindexFile hash now db source_key mtime_ns text, true)
  | none => (reindexFile hash now db source_key mtime_ns text, true)

/-- `n` consecutive `index_file` calls on an unchanged file, returning the
final database and the number of actual reparses. -/
def iterIndexFile (hash : String → String) (now : String)
    (source_key : String) (mtime_ns : Int) (text : String) :
    Nat → MemDB → MemDB × Nat
  | 0, db => (db, 0)
  | n + 1, db =>
    let r := index_file hash now db source_key mtime_ns text
    let rest := iterIndexFile hash now source_key mtime_ns text n r.1
    (rest.1, (if r.2 then 1 else 0) + rest.2)

/-! ## `nanobot/agent/memory.py` -/

/-- A search hit (`MemoryHit`). -/
structure MemoryHit where
  source_key : String
  content : String
deriving DecidableEq

/-- The rank-order accumulation loop of `get_memory_context`: keep taking
hits while the running total of retrieved content characters stays within
`_MAX_RETRIEVED_CHARS = 6000`; stop (break) at the first hit that would
overflow. -/
def accumHits : List MemoryHit → Nat → List MemoryHit
  | [], _ => []
  | h :: t, total =>
    if 6000 < total + h.content.length then []
    else h :: accumHits t (total + h.content.length)

/-- Total retrieved characters of a hit list (the `total_chars` counter). -/
def hitsChars (l : List MemoryHit) : Nat :=
  (l.map fun h => h.content.length).sum

/-- `MemoryStore.get_memory_context(query)`.  `search q limit exclude`
models `self._db.search(...)` with its engine-side ranking,
`todayFilename` is `f"{today_date()}.md"`, `today` the content of today's
note file and `longTerm` the content of `MEMORY.md` (both `""` when
missing).  The preceding mtime-gated re-index is a database side effect
not visible in this pure view. -/
def get_memory_context (search : String → Nat → List String → List MemoryHit)
    (todayFilename today longTerm : String) (query : Option String) : String :=
  let parts : List String := if today ≠ "" then ["## Today's Notes\n" ++ today] else []
  let relevant : Option String :=
    match query with
    | some q =>
      if q ≠ "" then
        let hits := search q 8 [todayFilename]
        if hits ≠ [] then
          let retrieved := (accumHits hits 0).map fun hit =>
            "[" ++ hit.source_key ++ "] " ++ hit.content
          if retrieved ≠ [] then
            some ("## Relevant Memory\n" ++ String.intercalate "\n\n" retrieved)
          else none
        else none
      else none
    | none => none
  match relevant with
  | some sec => String.intercalate "\n\n" (parts ++ [sec])
  | none =>
    let parts := if longTerm ≠ "" then ("## Long-term Memory\n" ++ longTerm) :: parts else parts
    if parts ≠ [] then String.intercalate "\n\n" parts else ""

/-- A model response that is a genuine fact list but happens to contain the
word `nothing`. -/
def factListWithNothing : String :=
  "- User prefers tabs over spaces\n- Decided nothing further is needed on billing"

/-- A three-message session history (used against the compaction getter). -/
def fullC1 : List ChatMsg :=
  [{ role := "user", content := .str "hello" },
   { role := "assistant", content := .str "hi there" },
   { role := "user", content := .str "ping" }]

/-- A compaction model oracle that always answers `S`. -/
def chatOkS : String → Except Unit (Option String) := fun _ => .ok (some "S")

/-- An empty provider response (no tool calls, no content). -/
def emptyResp : LLMResponse := {}

/-- A provider response whose single tool call is the delivery tool
`message`. -/
def deliveryResp : LLMResponse :=
  { tool_calls := [{ id := "call1", name := "message", argumentsJson := "\x7b\x7d" }],
    has_tool_calls := true }

/-- A response stream: a delivery-tool call on iteration 1, then empty. -/
def chatDelivery : Nat → LLMResponse := fun i => if i = 1 then deliveryResp else emptyResp

/-- A response stream that is empty on every iteration. -/
def chatAllEmpty : Nat → LLMResponse := fun _ => emptyResp

/-- A zero draw for `random.uniform(0, 1)`. -/
def zeroUniform : Nat → ℚ := fun _ => 0

/-- A tool-execution oracle returning empty output. -/
def noTool : String → String → String := fun _ _ => ""

/-- An empty index database. -/
def dbEmpty : MemDB := { sources := [], entries := [] }

/-- A note file body with a duplicated paragraph and one too-short chunk. -/
def sampleNote : String :=
  "alpha preference noted\n\nalpha preference noted\n\nshort"

/-- A stand-in content-hash oracle (injective on the witness inputs). -/
def hashId : String → String := fun s => s

/-- A search oracle returning one ranked hit. -/
def searchW : String → Nat → List String → List MemoryHit :=
  fun _ _ _ => [⟨"2025-01-01.md", "docker compose notes"⟩]

end Nanobot

/-! ## Theorems -/

namespace Nanobot

theorem asString_length (l : List Char) : (List.asString l).length = l.length := rfl

theorem asString_data (l : List Char) : (List.asString l).data = l := rfl

theorem ansiTail_length_le : ∀ l l', ansiTail l = some l' → l'.length ≤ l.length := by
  intro l
  induction l with
  | nil => intro l' h; simp [ansiTail] at h
  | cons c cs ih =>
    intro l' h
    simp only [ansiTail] at h
    split at h
    · exact le_trans (ih _ h) (by simp)
    · split at h
      · cases h; simp
      · cases h

theorem stripAnsiFuel_length_le : ∀ fuel l, (stripAnsiFuel fuel l).length ≤ l.length := by
  intro fuel
  induction fuel with
  | zero => intro l; simp [stripAnsiFuel]
  | succ f ih =>
    intro l
    match l with
    | [] => simp [stripAnsiFuel]
    | c :: cs =>
      simp only [stripAnsiFuel]
      split
      · cases hat : ansiTail cs.tail with
        | some rest =>
          have h1 := ansiTail_length_le _ _ hat
          have h2 := ih rest
          have h3 : cs.tail.length ≤ cs.length := by cases cs <;> simp
          simpa using by omega
        | none =>
          have h2 := ih cs
          simp only [List.length_cons]
          omega
      · have h2 := ih cs
        simp only [List.length_cons]
        omega

theorem stripAnsi_length_le (s : String) : (stripAnsi s).length ≤ s.length := by
  simpa [stripAnsi, asString_length] using stripAnsiFuel_length_le s.data.length s.data

theorem stripAnsiFuel_eq_self :
    ∀ fuel l, (∀ c ∈ l, c ≠ '\x1b') → stripAnsiFuel fuel l = l := by
  intro fuel
  induction fuel with
  | zero => intro l _; rfl
  | succ f ih =>
    intro l h
    match l with
    | [] => rfl
    | c :: cs =>
      have hc : c ≠ '\x1b' := h c (by simp)
      have hcb : (c == '\x1b') = false := by simpa using hc
      simp only [stripAnsiFuel, hcb, Bool.false_and, Bool.false_eq_true, if_false]
      rw [ih cs fun x hx => h x (by simp [hx])]

/-- C10: `truncate_tool_result` strips ANSI escape sequences from every
input before any size check; an input whose stripped form is within the
budget is returned ANSI-stripped (not unchanged), and the over-budget path
operates on (and decides against) the stripped text. -/
theorem c10_ansi_stripped_before_size_check
    (jsonPretty : String → Option String) (s : String) (maxChars : Int) :
    (((stripAnsi s).length : Int) ≤ maxChars →
      truncateToolResult jsonPretty s maxChars = stripAnsi s) ∧
    (maxChars < ((stripAnsi s).length : Int) →
      truncateToolResult jsonPretty s maxChars =
        truncateOversize jsonPretty (stripAnsi s) maxChars) := by
  constructor
  · intro h
    simp [truncateToolResult, h]
  · intro h
    simp [truncateToolResult, not_le.mpr h]

/-- Witness for C10: an in-budget input carrying ANSI colour codes comes
back with the codes removed, so the output differs from the input. -/
theorem c10_witness :
    ((stripAnsi ansiSample).length : Int) ≤ 3000 ∧
    truncateToolResult (fun _ => none) ansiSample 3000 = stripAnsi ansiSample ∧
    stripAnsi ansiSample = "red" ∧ ansiSample ≠ "red" :=
  ⟨by decide, (c10_ansi_stripped_before_size_check (fun _ => none) ansiSample 3000).1 (by decide),
    by decide, by decide⟩

/-- C3 counterexample: `'\x7b"a":1\x7d'` is valid JSON whose pretty-printed
form fits the budget, yet `truncate_tool_result` returns the (ANSI-stripped)
input itself — not the pretty-printed form — because inputs at or under the
budget are returned before the JSON branch is ever consulted. -/
theorem c3_counterexample :
    truncateToolResult jsonPrettyC3 jsonInputC3 3000 = jsonInputC3 ∧
    jsonPrettyC3 jsonInputC3 = some prettyC3 ∧
    ((prettyC3.length : Int) ≤ 3000) ∧
    jsonInputC3 ≠ prettyC3 := by
  refine ⟨by decide, by decide, by decide, by decide⟩

/-- C3 (amended): pretty-printing happens only on the over-budget path.
For every input whose ANSI-stripped form exceeds the budget, is detected as
JSON (first non-whitespace character `\x7b` or `\x5b`), parses, and whose
pretty-printed form is within the budget, `truncate_tool_result` returns
exactly the pretty-printed form. -/
theorem c3_amended_pretty_printed_when_oversize
    (jsonPretty : String → Option String) (s : String) (maxChars : Int) (pretty : String)
    (hover : maxChars < ((stripAnsi s).length : Int))
    (hdet : jsonDetect (stripAnsi s) = true)
    (hjp : jsonPretty (stripAnsi s) = some pretty)
    (hfit : (pretty.length : Int) ≤ maxChars) :
    truncateToolResult jsonPretty s maxChars = pretty := by
  simp [truncateToolResult, not_le.mpr hover, truncateOversize, hdet, hjp, hfit]

/-- Witness for amended C3: an over-budget JSON object text whose pretty
form fits is returned pretty-printed. -/
theorem c3_amended_witness :
    (5 : Int) < ((stripAnsi paddedJson).length : Int) ∧
    jsonDetect (stripAnsi paddedJson) = true ∧
    jsonPrettyPadded (stripAnsi paddedJson) = some "\x7b\x7d" ∧
    truncateToolResult jsonPrettyPadded paddedJson 5 = "\x7b\x7d" :=
  ⟨by decide, by decide, by decide,
    c3_amended_pretty_printed_when_oversize jsonPrettyPadded paddedJson 5 "\x7b\x7d"
      (by decide) (by decide) (by decide) (by decide)⟩

theorem pyTakeTo_length_le (s : String) (i : Int) (n : Nat)
    (h0 : 0 ≤ i) (hn : i.toNat ≤ n) : (pyTakeTo s i).length ≤ n := by
  rw [pyTakeTo, asString_length, pySliceTo, if_pos h0]
  exact le_trans (List.length_take_le _ _) hn

theorem textNotice_length_le (total : Nat) (ht : total < 10 ^ 19) :
    (textTruncNotice (3000 - 100) total).length ≤ 98 := by
  have hrepr : (Nat.repr total).length ≤ 19 := Nat.repr_length _ 19 (by norm_num) ht
  simp only [textTruncNotice, String.length_append]
  have h1 : ("\n\n... [truncated - showed " : String).length = 26 := by decide
  have h2 : (toString (3000 - 100 : Int)).length = 4 := by decide
  have h3 : (" of " : String).length = 4 := by decide
  have h4 : (" chars. Do NOT re-run this tool to see more.]" : String).length = 45 := by decide
  omega

theorem jsonNotice_length_le (total : Nat) (ht : total < 10 ^ 19) :
    (jsonTruncNotice (3000 - 120) total).length ≤ 103 := by
  have hrepr : (Nat.repr total).length ≤ 19 := Nat.repr_length _ 19 (by norm_num) ht
  simp only [jsonTruncNotice, String.length_append]
  have h1 : ("\n\n... [JSON truncated - showed " : String).length = 31 := by decide
  have h2 : (toString (3000 - 120 : Int)).length = 4 := by decide
  have h3 : (" of " : String).length = 4 := by decide
  have h4 : (" chars. Do NOT re-run this tool to see more.]" : String).length = 45 := by decide
  omega

/-- C4: with the default 3000-character budget, every oversized input is
truncated to at most 3000 characters, sentinel included.  The two size
bounds `10 ^ 19` reflect that Python strings are bounded by
`sys.maxsize < 10 ^ 19` characters. -/
theorem c4_truncation_output_within_budget
    (jsonPretty : String → Option String) (s : String)
    (hlong : 3000 < s.length) (hsz : s.length < 10 ^ 19)
    (hjp : ∀ t p, jsonPretty t = some p → p.length < 10 ^ 19) :
    (truncateToolResult jsonPretty s 3000).length ≤ 3000 := by
  by_cases hc : (((stripAnsi s).length : Int) ≤ 3000)
  · rw [(c10_ansi_stripped_before_size_check jsonPretty s 3000).1 hc]
    exact_mod_cast hc
  · rw [(c10_ansi_stripped_before_size_check jsonPretty s 3000).2 (not_le.mp hc)]
    have hclean : (stripAnsi s).length < 10 ^ 19 :=
      lt_of_le_of_lt (stripAnsi_length_le s) hsz
    have htext : (pyTakeTo (stripAnsi s) (3000 - 100) ++
        textTruncNotice (3000 - 100) (stripAnsi s).length).length ≤ 3000 := by
      rw [String.length_append]
      have h1 := pyTakeTo_length_le (stripAnsi s) (3000 - 100) 2900 (by norm_num) (by decide)
      have h2 := textNotice_length_le (stripAnsi s).length hclean
      omega
    unfold truncateOversize
    cases hdet : jsonDetect (stripAnsi s) with
    | false => simpa [hdet] using htext
    | true =>
      cases hjpc : jsonPretty (stripAnsi s) with
      | none => simpa [hdet, hjpc] using htext
      | some pretty =>
        simp only [hdet, hjpc, if_true]
        by_cases hp : ((pretty.length : Int) ≤ 3000)
        · simp only [hp, if_true]
          exact_mod_cast hp
        · simp only [hp, if_false]
          have hpr : pretty.length < 10 ^ 19 := hjp _ _ hjpc
          rw [String.length_append]
          have h1 := pyTakeTo_length_le pretty (3000 - 120) 2880 (by norm_num) (by decide)
          have h2 := jsonNotice_length_le pretty.length hpr
          omega

theorem pyStartsWith_iff : ∀ (hay n : List Char),
    pyStartsWith hay n = true ↔ ∃ q, hay = n ++ q := by
  intro hay n
  induction n generalizing hay with
  | nil => simpa [pyStartsWith] using ⟨hay, rfl⟩
  | cons d ds ih =>
    cases hay with
    | nil =>
      simp only [pyStartsWith, List.cons_append]
      constructor
      · intro h; cases h
      · rintro ⟨q, h⟩; cases h
    | cons c cs =>
      simp only [pyStartsWith, Bool.and_eq_true, beq_iff_eq, ih cs, List.cons_append]
      constructor
      · rintro ⟨rfl, q, rfl⟩; exact ⟨q, rfl⟩
      · rintro ⟨q, h⟩
        injection h with h1 h2
        exact ⟨h1, q, h2⟩

theorem pyContains_nil_needle : ∀ hay : List Char, pyContains hay [] = true := by
  intro hay
  cases hay with
  | nil => rfl
  | cons c cs => simp [pyContains, pyStartsWith]

theorem pyContains_iff : ∀ (hay n : List Char),
    pyContains hay n = true ↔ ∃ p q, hay = p ++ n ++ q := by
  intro hay n
  induction hay with
  | nil =>
    constructor
    · intro h
      cases n with
      | nil => exact ⟨[], [], rfl⟩
      | cons d ds => simp [pyContains] at h
    · rintro ⟨p, q, h⟩
      have h' : p ++ n ++ q = [] := h.symm
      rw [List.append_eq_nil, List.append_eq_nil] at h'
      rw [h'.1.2]
      exact pyContains_nil_needle []
  | cons c cs ih =>
    simp only [pyContains, Bool.or_eq_true, pyStartsWith_iff, ih]
    constructor
    · rintro (⟨q, hq⟩ | ⟨p, q, hq⟩)
      · exact ⟨[], q, by simpa using hq⟩
      · exact ⟨c :: p, q, by simp [hq]⟩
    · rintro ⟨p, q, h⟩
      cases p with
      | nil => exact Or.inl ⟨q, by simpa using h⟩
      | cons x xs =>
        right
        rw [List.cons_append, List.cons_append] at h
        injection h with h1 h2
        exact ⟨xs, q, h2⟩

theorem pyContains_reverse (hay n : List Char) :
    pyContains hay.reverse n.reverse = pyContains hay n := by
  have h1 : (pyContains hay.reverse n.reverse = true) ↔ (pyContains hay n = true) := by
    rw [pyContains_iff, pyContains_iff]
    constructor
    · rintro ⟨p, q, h⟩
      refine ⟨q.reverse, p.reverse, ?_⟩
      have h2 := congrArg List.reverse h
      simpa [List.reverse_append, List.append_assoc] using h2
    · rintro ⟨p, q, rfl⟩
      exact ⟨q.reverse, p.reverse, by simp [List.reverse_append, List.append_assoc]⟩
  cases hb : pyContains hay n with
  | true => exact h1.mpr hb
  | false =>
    cases hb2 : pyContains hay.reverse n.reverse with
    | true => exact absurd (h1.mp hb2) (by simp [hb])
    | false => rfl

theorem toUpper_of_space {c : Char} (h : pyIsSpace c = true) : c.toUpper = c := by
  simp only [pyIsSpace, Bool.or_eq_true, beq_iff_eq] at h
  rcases h with ((((rfl | rfl) | rfl) | rfl) | rfl) | rfl <;> decide

theorem pyContains_map_toUpper_dropWhile (n : List Char)
    (hn : ∀ x ∈ n, pyIsSpace x = false) (hne : n ≠ []) :
    ∀ l : List Char, pyContains (l.map Char.toUpper) n = true →
      pyContains ((l.dropWhile pyIsSpace).map Char.toUpper) n = true := by
  intro l
  induction l with
  | nil => intro h; simpa using h
  | cons c cs ih =>
    intro h
    rw [List.dropWhile_cons]
    by_cases hc : pyIsSpace c = true
    · rw [if_pos hc]
      apply ih
      simp only [List.map_cons, pyContains, Bool.or_eq_true] at h
      rcases h with h | h
      · exfalso
        rcases (pyStartsWith_iff _ _).mp h with ⟨q, hq⟩
        cases n with
        | nil => exact hne rfl
        | cons d ds =>
          rw [List.cons_append] at hq
          injection hq with h1 _
          have hd := hn d (by simp)
          rw [← h1, toUpper_of_space hc] at hd
          rw [hc] at hd
          cases hd
      · exact h
    · rw [if_neg hc]
      simpa using h

theorem pyContains_map_toUpper_strip (n : List Char)
    (hn : ∀ x ∈ n, pyIsSpace x = false) (hne : n ≠ []) (l : List Char)
    (h : pyContains (l.map Char.toUpper) n = true) :
    pyContains ((pyStripData l).map Char.toUpper) n = true := by
  have hn' : ∀ x ∈ n.reverse, pyIsSpace x = false := by
    intro x hx; exact hn x (List.mem_reverse.mp hx)
  have hne' : n.reverse ≠ [] := by
    intro hx; exact hne (by simpa using congrArg List.reverse hx)
  have h1 := pyContains_map_toUpper_dropWhile n hn hne l h
  have h2 : pyContains (((l.dropWhile pyIsSpace).reverse).map Char.toUpper) n.reverse = true := by
    rw [List.map_reverse]
    rw [pyContains_reverse]
    exact h1
  have h3 := pyContains_map_toUpper_dropWhile n.reverse hn' hne' _ h2
  unfold pyStripData
  rw [List.map_reverse]
  have h4 := pyContains_reverse (((l.dropWhile pyIsSpace).reverse.dropWhile pyIsSpace).map Char.toUpper) n.reverse
  rw [List.reverse_reverse] at h4
  rw [← h4] at h3
  exact h3

/-- C7: the pre-filter of `extract_facts`: when the user text is shorter
than 20 characters and the assistant text shorter than 50, it returns
`None` and makes zero model calls. -/
theorem c7_extract_facts_prefilter
    (chat : String → Except Unit (Option String)) (user_message assistant_message : String)
    (hu : user_message.length < 20) (ha : assistant_message.length < 50) :
    extract_facts chat user_message assistant_message = (none, 0) := by
  unfold extract_facts
  rw [if_pos ⟨hu, ha⟩]

/-- Witness for C7: `extract_facts("ok", "sure")` returns `None` with zero
model calls, for a concrete provider oracle. -/
theorem c7_witness :
    ("ok" : String).length < 20 ∧ ("sure" : String).length < 50 ∧
    extract_facts (fun _ => .error ()) "ok" "sure" = (none, 0) :=
  ⟨by decide, by decide,
    c7_extract_facts_prefilter (fun _ => .error ()) "ok" "sure" (by decide) (by decide)⟩

/-- C9 (implicit): past the pre-filter, every non-failing model response
whose content contains the substring `nothing` in any letter case makes
`extract_facts` return `None` — the check is `"NOTHING" in result.upper()`,
not equality with the sentinel — so a genuine fact list mentioning the word
`nothing` anywhere is discarded. -/
theorem c9_nothing_substring_discards_response
    (chat : String → Except Unit (Option String))
    (user_message assistant_message : String) (c : Option String)
    (hpre : ¬ (user_message.length < 20 ∧ assistant_message.length < 50))
    (hok : chat (extractionPrompt (pyTakeTo user_message 3000)
      (pyTakeTo assistant_message 3000)) = .ok c)
    (hno : pyContains (pyUpper (c.getD "")).data "NOTHING".data = true) :
    extract_facts chat user_message assistant_message = (none, 1) := by
  unfold extract_facts
  rw [if_neg hpre, hok]
  have hcontains : pyContains (pyUpper (pyStrip (c.getD ""))).data "NOTHING".data = true := by
    have hdata : (pyUpper (pyStrip (c.getD ""))).data =
        (pyStripData (c.getD "").data).map Char.toUpper := rfl
    have hdata2 : (pyUpper (c.getD "")).data = (c.getD "").data.map Char.toUpper := rfl
    rw [hdata]
    rw [hdata2] at hno
    exact pyContains_map_toUpper_strip _ (by decide) (by decide) _ hno
  simp [hcontains]

/-- Witness for C9: a genuine two-fact bullet list containing the word
`nothing` is discarded. -/
theorem c9_witness :
    ¬ (("Please remember my editor preferences" : String).length < 20 ∧
        ("noted" : String).length < 50) ∧
    pyContains (pyUpper ((some factListWithNothing).getD "")).data "NOTHING".data = true ∧
    extract_facts (fun _ => .ok (some factListWithNothing))
      "Please remember my editor preferences" "noted" = (none, 1) :=
  ⟨by decide, by decide,
    c9_nothing_substring_discards_response (fun _ => .ok (some factListWithNothing))
      "Please remember my editor preferences" "noted" (some factListWithNothing)
      (by decide) rfl (by decide)⟩

/-- Witness for C4: a 3001-character plain-text result is truncated to at
most 3000 characters. -/
theorem c4_witness :
    3000 < longPlain.length ∧
    (truncateToolResult (fun _ => none) longPlain 3000).length ≤ 3000 := by
  have hlen : longPlain.length = 3001 := by
    rw [longPlain, asString_length, List.length_replicate]
  exact ⟨by omega,
    c4_truncation_output_within_budget (fun _ => none) longPlain (by omega)
      (by rw [hlen]; norm_num) (fun t p h => by cases h)⟩

/-- C1 counterexample: with `keep_recent = 2`, `threshold_tokens = 0` and a
3-message full history (token estimate at/over threshold), the old-message
count is `1 ≤ keep_recent`, yet the getter performs a compaction (one
summarization call) — refuting "no compaction whenever old-count ≤
keep_recent". -/
theorem c1_counterexample :
    ¬ estimate_messages_tokens fullC1 < 0 ∧
    (pyDropLast fullC1 2).length = 1 ∧
    (getCompactedHistory chatOkS true true [] 2 0 fullC1 {}).2.2 = 1 :=
  ⟨by decide, by decide, by decide⟩

/-- C1 (amended): at/over the token threshold the getter returns the full
history unchanged (no compaction) when the total message count is at most
`keep_recent`; with more messages than `keep_recent` it splits into
`old = full[:-keep_recent]` and `recent = full[-keep_recent:]`, and a
summarization call happens exactly when the stored `compacted_up_to` is
below the old-message count (in particular, whenever `0 < old-count` and
nothing was compacted before — regardless of how old-count compares to
`keep_recent`). -/
theorem c1_amended_split_and_trigger
    (chat : String → Except Unit (Option String)) (histTrunc : List ChatMsg)
    (keep_recent threshold_tokens : Nat) (full : List ChatMsg) (meta : CompactionMeta)
    (hth : threshold_tokens ≤ estimate_messages_tokens full) (hne : full ≠ []) :
    (full.length ≤ keep_recent →
      getCompactedHistory chat true true histTrunc keep_recent threshold_tokens full meta
        = (full, meta, 0)) ∧
    (keep_recent < full.length →
      (getCompactedHistory chat true true histTrunc keep_recent threshold_tokens full meta).2.2
        = (if meta.compacted_up_to < (pyDropLast full keep_recent).length then 1 else 0) ∧
      (meta.compacted_up_to < (pyDropLast full keep_recent).length →
        getCompactedHistory chat true true histTrunc keep_recent threshold_tokens full meta
          = (summaryMsg (compact chat (pyDropLast full keep_recent) meta.compaction_summary)
              :: pyLastWindow full keep_recent,
             { compaction_summary :=
                 compact chat (pyDropLast full keep_recent) meta.compaction_summary,
               compacted_up_to := (pyDropLast full keep_recent).length }, 1))) := by
  have hguard : ¬ (¬True ∨ ¬True) := by simp
  constructor
  · intro hle
    simp only [getCompactedHistory]
    rw [if_neg hguard, if_neg hne, if_neg (not_lt.mpr hth), if_pos hle]
  · intro hgt
    have hnle : ¬ full.length ≤ keep_recent := not_le.mpr hgt
    constructor
    · simp only [getCompactedHistory]
      rw [if_neg hguard, if_neg hne, if_neg (not_lt.mpr hth), if_neg hnle]
      by_cases hcup : (pyDropLast full keep_recent).length ≤ meta.compacted_up_to
      · rw [if_pos hcup, if_neg (not_lt.mpr hcup)]
        by_cases hprev : meta.compaction_summary ≠ ""
        · rw [if_pos hprev]
        · rw [if_neg hprev]
      · rw [if_neg hcup, if_pos (not_le.mp hcup)]
    · intro hcup
      simp only [getCompactedHistory]
      rw [if_neg hguard, if_neg hne, if_neg (not_lt.mpr hth), if_neg hnle,
        if_neg (not_le.mpr hcup)]

/-- Witness for amended C1: the concrete 3-message scenario triggers the
compaction-call count predicted by the amended trigger condition. -/
theorem c1_amended_witness :
    (0 : Nat) ≤ estimate_messages_tokens fullC1 ∧ fullC1 ≠ [] ∧ 2 < fullC1.length ∧
    (getCompactedHistory chatOkS true true [] 2 0 fullC1 {}).2.2
      = (if ({} : CompactionMeta).compacted_up_to < (pyDropLast fullC1 2).length
          then 1 else 0) :=
  ⟨Nat.zero_le _, by decide, by decide,
    ((c1_amended_split_and_trigger chatOkS [] 2 0 fullC1 {} (Nat.zero_le _)
        (by decide)).2 (by decide)).1⟩

theorem getCompactedHistory_stable
    (chat : String → Except Unit (Option String)) (hasC en : Bool)
    (histTrunc : List ChatMsg) (keep thr : Nat) (full : List ChatMsg) (meta : CompactionMeta) :
    (getCompactedHistory chat hasC en histTrunc keep thr full
        (getCompactedHistory chat hasC en histTrunc keep thr full meta).2.1).2.1
      = (getCompactedHistory chat hasC en histTrunc keep thr full meta).2.1 ∧
    (getCompactedHistory chat hasC en histTrunc keep thr full
        (getCompactedHistory chat hasC en histTrunc keep thr full meta).2.1).2.2 = 0 := by
  cases hasC with
  | false => simp [getCompactedHistory]
  | true =>
  cases en with
  | false => simp [getCompactedHistory]
  | true =>
  by_cases hne : full = []
  · simp [getCompactedHistory, hne]
  by_cases hth : estimate_messages_tokens full < thr
  · simp [getCompactedHistory, hne, hth]
  by_cases hlen : full.length ≤ keep
  · simp [getCompactedHistory, hne, hth, hlen]
  by_cases hcup : (pyDropLast full keep).length ≤ meta.compacted_up_to
  · by_cases hprev : meta.compaction_summary ≠ ""
    · simp [getCompactedHistory, hne, hth, hlen, hcup, hprev]
    · simp [getCompactedHistory, hne, hth, hlen, hcup, hprev]
  · by_cases hprev : compact chat (pyDropLast full keep) meta.compaction_summary ≠ ""
    · simp [getCompactedHistory, hne, hth, hlen, hcup, hprev]
    · simp [getCompactedHistory, hne, hth, hlen, hcup, hprev]

theorem getCompactedHistory_calls_le_one
    (chat : String → Except Unit (Option String)) (hasC en : Bool)
    (histTrunc : List ChatMsg) (keep thr : Nat) (full : List ChatMsg) (meta : CompactionMeta) :
    (getCompactedHistory chat hasC en histTrunc keep thr full meta).2.2 ≤ 1 := by
  cases hasC with
  | false => simp [getCompactedHistory]
  | true =>
  cases en with
  | false => simp [getCompactedHistory]
  | true =>
  by_cases hne : full = []
  · simp [getCompactedHistory, hne]
  by_cases hth : estimate_messages_tokens full < thr
  · simp [getCompactedHistory, hne, hth]
  by_cases hlen : full.length ≤ keep
  · simp [getCompactedHistory, hne, hth, hlen]
  by_cases hcup : (pyDropLast full keep).length ≤ meta.compacted_up_to
  · by_cases hprev : meta.compaction_summary ≠ ""
    · simp [getCompactedHistory, hne, hth, hlen, hcup, hprev]
    · simp [getCompactedHistory, hne, hth, hlen, hcup, hprev]
  · simp [getCompactedHistory, hne, hth, hlen, hcup]

theorem getCompactedHistory_monotone
    (chat : String → Except Unit (Option String)) (hasC en : Bool)
    (histTrunc : List ChatMsg) (keep thr : Nat) (full : List ChatMsg) (meta : CompactionMeta) :
    meta.compacted_up_to
      ≤ (getCompactedHistory chat hasC en histTrunc keep thr full meta).2.1.compacted_up_to := by
  cases hasC with
  | false => simp [getCompactedHistory]
  | true =>
  cases en with
  | false => simp [getCompactedHistory]
  | true =>
  by_cases hne : full = []
  · simp [getCompactedHistory, hne]
  by_cases hth : estimate_messages_tokens full < thr
  · simp [getCompactedHistory, hne, hth]
  by_cases hlen : full.length ≤ keep
  · simp [getCompactedHistory, hne, hth, hlen]
  by_cases hcup : (pyDropLast full keep).length ≤ meta.compacted_up_to
  · by_cases hprev : meta.compaction_summary ≠ ""
    · simp [getCompactedHistory, hne, hth, hlen, hcup, hprev]
    · simp [getCompactedHistory, hne, hth, hlen, hcup, hprev]
  · simp only [getCompactedHistory]
    rw [if_neg (by simp : ¬ (¬True ∨ ¬True)), if_neg hne, if_neg hth, if_neg hlen, if_neg hcup]
    exact le_of_lt (not_le.mp hcup)

theorem iterCompactedHistory_stable
    (chat : String → Except Unit (Option String)) (hasC en : Bool)
    (histTrunc : List ChatMsg) (keep thr : Nat) (full : List ChatMsg) (meta : CompactionMeta) :
    ∀ n, iterCompactedHistory chat hasC en histTrunc keep thr full n
        (getCompactedHistory chat hasC en histTrunc keep thr full meta).2.1
      = ((getCompactedHistory chat hasC en histTrunc keep thr full meta).2.1, 0) := by
  intro n
  induction n with
  | zero => rfl
  | succ k ih =>
    have hs := getCompactedHistory_stable chat hasC en histTrunc keep thr full meta
    simp only [iterCompactedHistory, hs.1, hs.2, ih]

/-- C2: for a fixed session and unchanged full history, the compaction
getter makes at most one summarization call in total over any number of
repeated calls: the first call makes at most one call, every later call
leaves the stored metadata (summary text and `compacted_up_to`)
byte-identical and makes zero summarization calls, and `compacted_up_to`
never decreases. -/
theorem c2_repeated_history_fetch_idempotent
    (chat : String → Except Unit (Option String)) (hasC en : Bool)
    (histTrunc : List ChatMsg) (keep thr : Nat) (full : List ChatMsg) (meta : CompactionMeta) :
    (getCompactedHistory chat hasC en histTrunc keep thr full meta).2.2 ≤ 1 ∧
    meta.compacted_up_to
      ≤ (getCompactedHistory chat hasC en histTrunc keep thr full meta).2.1.compacted_up_to ∧
    ((getCompactedHistory chat hasC en histTrunc keep thr full
        (getCompactedHistory chat hasC en histTrunc keep thr full meta).2.1).2.1
      = (getCompactedHistory chat hasC en histTrunc keep thr full meta).2.1 ∧
     (getCompactedHistory chat hasC en histTrunc keep thr full
        (getCompactedHistory chat hasC en histTrunc keep thr full meta).2.1).2.2 = 0) ∧
    (∀ n, iterCompactedHistory chat hasC en histTrunc keep thr full (n + 1) meta
      = ((getCompactedHistory chat hasC en histTrunc keep thr full meta).2.1,
         (getCompactedHistory chat hasC en histTrunc keep thr full meta).2.2)) := by
  refine ⟨getCompactedHistory_calls_le_one chat hasC en histTrunc keep thr full meta,
    getCompactedHistory_monotone chat hasC en histTrunc keep thr full meta,
    getCompactedHistory_stable chat hasC en histTrunc keep thr full meta, ?_⟩
  intro n
  simp only [iterCompactedHistory,
    iterCompactedHistory_stable chat hasC en histTrunc keep thr full meta n, add_zero]

/-- C6: the empty-response policy of `_run_agent_loop`: (i) an iteration
whose tool calls include a delivery tool (`message`/`spawn`) followed by
an empty response makes the loop return `None` immediately, with no
backoff sleep; (ii) from a fresh turn, three consecutive empty responses
with no preceding delivery-tool call consume the 2-retry budget, sleeping
`min(2^1 + uniform(0,1), 10)` and then `min(2^2 + uniform(0,1), 10)`
seconds, and the loop returns `None` on the third response. -/
theorem c6_empty_response_retry_policy
    (jsonPretty : String → Option String) (chat : Nat → LLMResponse)
    (execTool : String → String → String) (uniform : Nat → ℚ) :
    (∀ fuel i messages emptyRetriesLeft lastDeliv,
      (chat i).has_tool_calls = true →
      ((chat i).tool_calls.any fun tc => tc.name == "message" || tc.name == "spawn") = true →
      isEmptyResponse (chat (i + 1)) = true →
      runLoopFuel jsonPretty chat execTool uniform (fuel + 2) i messages
          emptyRetriesLeft lastDeliv
        = ⟨none, [], 2⟩) ∧
    (∀ max_iterations messages,
      3 ≤ max_iterations →
      isEmptyResponse (chat 1) = true →
      isEmptyResponse (chat 2) = true →
      isEmptyResponse (chat 3) = true →
      runAgentLoop jsonPretty chat execTool uniform max_iterations messages
        = ⟨none, [min ((2 : ℚ) ^ 1 + uniform 1) 10, min ((2 : ℚ) ^ 2 + uniform 2) 10], 3⟩) := by
  constructor
  · intro fuel i messages emptyRetriesLeft lastDeliv htc hdel hemp
    simp only [isEmptyResponse, Bool.and_eq_true, Bool.not_eq_true'] at hemp
    obtain ⟨h1, h2⟩ := hemp
    show runLoopFuel jsonPretty chat execTool uniform (fuel + 1 + 1) i messages
        emptyRetriesLeft lastDeliv = ⟨none, [], 2⟩
    simp [runLoopFuel, htc, hdel, h1, h2]
  · intro max_iterations messages h3 he1 he2 he3
    obtain ⟨k, rfl⟩ : ∃ k, max_iterations = k + 3 := ⟨max_iterations - 3, by omega⟩
    simp only [isEmptyResponse, Bool.and_eq_true, Bool.not_eq_true'] at he1 he2 he3
    simp only [runAgentLoop, EMPTY_RESPONSE_RETRIES]
    simp [runLoopFuel, he1.1, he1.2, he2.1, he2.2, he3.1, he3.2, EMPTY_RESPONSE_RETRIES]

/-- Witness for C6: a delivery-tool call followed by an empty response
returns `None` after two model calls without sleeping; an all-empty
response stream makes the loop back off twice and return `None` on its
third call. -/
theorem c6_witness :
    (chatDelivery 1).has_tool_calls = true ∧
    ((chatDelivery 1).tool_calls.any fun tc => tc.name == "message" || tc.name == "spawn") = true ∧
    isEmptyResponse (chatDelivery 2) = true ∧
    runLoopFuel (fun _ => none) chatDelivery noTool zeroUniform 2 1 []
        EMPTY_RESPONSE_RETRIES false
      = ⟨none, [], 2⟩ ∧
    isEmptyResponse (chatAllEmpty 1) = true ∧
    runAgentLoop (fun _ => none) chatAllEmpty noTool zeroUniform 20 []
      = ⟨none, [min ((2 : ℚ) ^ 1 + zeroUniform 1) 10, min ((2 : ℚ) ^ 2 + zeroUniform 2) 10], 3⟩ := by
  refine ⟨by decide, by decide, by decide, ?_, by decide, ?_⟩
  · exact (c6_empty_response_retry_policy (fun _ => none) chatDelivery noTool zeroUniform).1
      0 1 [] EMPTY_RESPONSE_RETRIES false (by decide) (by decide) (by decide)
  · exact (c6_empty_response_retry_policy (fun _ => none) chatAllEmpty noTool zeroUniform).2
      20 [] (by norm_num) (by decide) (by decide) (by decide)

theorem find?_upsert_eq (key : String) (mtime : Int) (now : String)
    (srcs : List MemSource) :
    ((upsertSource srcs key mtime now).find? fun r => r.source_key == key).map
      (fun r => r.mtime_ns) = some mtime := by
  unfold upsertSource
  by_cases h : srcs.any fun r => r.source_key == key
  · rw [if_pos h]
    revert h
    induction srcs with
    | nil => intro h; simp at h
    | cons r rs ih =>
      intro h
      simp only [List.map_cons]
      by_cases hr : (r.source_key == key) = true
      · rw [if_pos hr, List.find?_cons_of_pos]
        · simp only [Option.map_some']
        · simpa using hr
      · rw [if_neg hr, List.find?_cons_of_neg]
        · apply ih
          simp only [List.any_cons, Bool.or_eq_true] at h
          rcases h with h | h
          · exact absurd h hr
          · exact h
        · simpa using hr
  · rw [if_neg h]
    revert h
    induction srcs with
    | nil => intro _; simp [List.find?]
    | cons r rs ih =>
      intro h
      have hr : (r.source_key == key) = false := by
        rcases Bool.eq_false_or_eq_true (r.source_key == key) with ht | hf
        · exact absurd (show ((r :: rs).any fun r => r.source_key == key) = true by
            simp [List.any_cons, ht]) h
        · exact hf
      rw [List.cons_append, List.find?_cons_of_neg]
      · exact ih fun hany => h (by simp [List.any_cons, hany])
      · simpa using hr

theorem lookupSource_reindex (hash : String → String) (now : String)
    (db : MemDB) (key : String) (mtime : Int) (text : String) :
    lookupSource (reindexFile hash now db key mtime text) key = some mtime := by
  unfold reindexFile lookupSource
  exact find?_upsert_eq key mtime now db.sources

theorem foldl_insert_filter (key : String) :
    ∀ (cs : List MemEntry), (∀ e ∈ cs, e.source_key = key) →
    ∀ (base news : List MemEntry),
      (∀ e ∈ base, (e.source_key == key) = false) →
      (∀ e ∈ news, e.source_key = key) →
      ((cs.foldl insertEntryOrIgnore (base ++ news)).filter fun e => e.source_key == key)
        = cs.foldl insertEntryOrIgnore news ∧
      ((cs.foldl insertEntryOrIgnore (base ++ news)).filter fun e => !(e.source_key == key))
        = base := by
  intro cs
  induction cs with
  | nil =>
    intro _ base news hb hn
    simp only [List.foldl_nil]
    constructor
    · rw [List.filter_append]
      have h1 : (base.filter fun e => e.source_key == key) = [] :=
        List.filter_eq_nil_iff.mpr fun e he => by simp [hb e he]
      have h2 : (news.filter fun e => e.source_key == key) = news :=
        List.filter_eq_self.mpr fun e he => by simp [hn e he]
      rw [h1, h2, List.nil_append]
    · rw [List.filter_append]
      have h1 : (base.filter fun e => !(e.source_key == key)) = base :=
        List.filter_eq_self.mpr fun e he => by simp [hb e he]
      have h2 : (news.filter fun e => !(e.source_key == key)) = [] :=
        List.filter_eq_nil_iff.mpr fun e he => by simp [hn e he]
      rw [h1, h2, List.append_nil]
  | cons c cs ih =>
    intro hcs base news hb hn
    simp only [List.foldl_cons]
    have hc : c.source_key = key := hcs c (by simp)
    have hbase : (base.any fun e' =>
        e'.source_key == c.source_key && e'.content_hash == c.content_hash) = false := by
      rw [List.any_eq_false]
      intro e he
      simp only [Bool.and_eq_true, beq_iff_eq, not_and]
      intro hk
      exfalso
      have := hb e he
      rw [hk, hc] at this
      simp at this
    have hany : ((base ++ news).any fun e' =>
        e'.source_key == c.source_key && e'.content_hash == c.content_hash)
        = (news.any fun e' =>
            e'.source_key == c.source_key && e'.content_hash == c.content_hash) := by
      rw [List.any_append, hbase, Bool.false_or]
    have hcs' : ∀ e ∈ cs, e.source_key = key := fun e he => hcs e (by simp [he])
    by_cases hdup : (news.any fun e' =>
        e'.source_key == c.source_key && e'.content_hash == c.content_hash) = true
    · have e1 : insertEntryOrIgnore (base ++ news) c = base ++ news := by
        unfold insertEntryOrIgnore
        rw [hany, if_pos hdup]
      have e2 : insertEntryOrIgnore news c = news := by
        unfold insertEntryOrIgnore
        rw [if_pos hdup]
      rw [e1, e2]
      exact ih hcs' base news hb hn
    · have e1 : insertEntryOrIgnore (base ++ news) c = base ++ (news ++ [c]) := by
        unfold insertEntryOrIgnore
        rw [hany, if_neg hdup, List.append_assoc]
      have e2 : insertEntryOrIgnore news c = news ++ [c] := by
        unfold insertEntryOrIgnore
        rw [if_neg hdup]
      rw [e1, e2]
      refine ih hcs' base (news ++ [c]) hb ?_
      intro e he
      rcases List.mem_append.mp he with he | he
      · exact hn e he
      · simp only [List.mem_singleton] at he
        rw [he]
        exact hc

theorem reindexFile_entries (hash : String → String) (now : String)
    (db : MemDB) (key : String) (mtime : Int) (text : String) :
    ((reindexFile hash now db key mtime text).entries.filter
        fun e => !(e.source_key == key))
      = db.entries.filter (fun e => !(e.source_key == key)) ∧
    ((reindexFile hash now db key mtime text).entries.filter
        fun e => e.source_key == key)
      = (if text = "" then [] else splitIntoChunks text).foldl
          (fun acc c => insertEntryOrIgnore acc
            { source_key := key, content := c, content_hash := hash c, created_at := now })
          [] := by
  unfold reindexFile
  simp only
  have hfold : ∀ init : List MemEntry,
      (if text = "" then [] else splitIntoChunks text).foldl
        (fun acc c => insertEntryOrIgnore acc
          { source_key := key, content := c, content_hash := hash c, created_at := now })
        init
      = ((if text = "" then [] else splitIntoChunks text).map
          fun c => (⟨key, c, hash c, now⟩ : MemEntry)).foldl insertEntryOrIgnore init :=
    fun init => (List.foldl_map _ _ _ _).symm
  rw [hfold, hfold]
  have hkeys : ∀ e ∈ (if text = "" then [] else splitIntoChunks text).map
      (fun c => (⟨key, c, hash c, now⟩ : MemEntry)), e.source_key = key := by
    intro e he
    rcases List.mem_map.mp he with ⟨c, _, rfl⟩
    rfl
  have hbase : ∀ e ∈ db.entries.filter fun e => !(e.source_key == key),
      (e.source_key == key) = false := by
    intro e he
    have h2 := (List.mem_filter.mp he).2
    simpa using h2
  have h := foldl_insert_filter key
    ((if text = "" then [] else splitIntoChunks text).map
      fun c => (⟨key, c, hash c, now⟩ : MemEntry))
    hkeys
    (db.entries.filter fun e => !(e.source_key == key)) []
    hbase
    (by intro e he; cases he)
  rw [List.append_nil] at h
  exact ⟨h.2, h.1⟩

theorem iterIndexFile_noop (hash : String → String) (now : String)
    (key : String) (mtime : Int) (text : String) :
    ∀ n db, lookupSource db key = some mtime →
      iterIndexFile hash now key mtime text n db = (db, 0) := by
  intro n
  induction n with
  | zero => intro db _; rfl
  | succ k ih =>
    intro db h
    have hstep : index_file hash now db key mtime text = (db, false) := by
      simp [index_file, h]
    simp [iterIndexFile, hstep, ih db h]

/-- C5: `index_file` is a no-op exactly when the stored modification time
equals the file's current modification time: the reparse flag is false iff
the stored mtime matches, a matching mtime leaves the database untouched,
`n + 1` consecutive calls on an unchanged file perform exactly as many
reparses as the first call (hence at most one), and on a change every
previous entry for the source is deleted before the deduplicated new
chunks are inserted (entries of other sources are untouched) and the
stored mtime is updated. -/
theorem c5_index_file_mtime_gate
    (hash : String → String) (now : String) (db : MemDB)
    (source_key : String) (mtime_ns : Int) (text : String) :
    ((index_file hash now db source_key mtime_ns text).2 = false
      ↔ lookupSource db source_key = some mtime_ns) ∧
    (lookupSource db source_key = some mtime_ns →
      (index_file hash now db source_key mtime_ns text).1 = db) ∧
    (∀ n, (iterIndexFile hash now source_key mtime_ns text (n + 1) db).2
      = if (index_file hash now db source_key mtime_ns text).2 then 1 else 0) ∧
    (lookupSource db source_key ≠ some mtime_ns →
      ((index_file hash now db source_key mtime_ns text).1.entries.filter
          (fun e => !(e.source_key == source_key))
        = db.entries.filter (fun e => !(e.source_key == source_key)) ∧
       (index_file hash now db source_key mtime_ns text).1.entries.filter
          (fun e => e.source_key == source_key)
        = (if text = "" then [] else splitIntoChunks text).foldl
            (fun acc c => insertEntryOrIgnore acc (⟨source_key, c, hash c, now⟩ : MemEntry))
            [] ∧
       lookupSource (index_file hash now db source_key mtime_ns text).1 source_key
        = some mtime_ns)) := by
  have hresolve : (lookupSource db source_key = some mtime_ns →
        index_file hash now db source_key mtime_ns text = (db, false)) ∧
      (lookupSource db source_key ≠ some mtime_ns →
        index_file hash now db source_key mtime_ns text
          = (reindexFile hash now db source_key mtime_ns text, true)) := by
    constructor
    · intro h
      simp [index_file, h]
    · intro h
      unfold index_file
      cases hls : lookupSource db source_key with
      | none => rfl
      | some stored =>
        have hne : ¬ stored = mtime_ns := fun he => h (by rw [hls, he])
        simp [hne]
  refine ⟨?_, ?_, ?_, ?_⟩
  · constructor
    · intro h
      by_contra hne
      rw [(hresolve.2 hne)] at h
      cases h
    · intro h
      rw [hresolve.1 h]
  · intro h
    rw [hresolve.1 h]
  · intro n
    have hlook : lookupSource (index_file hash now db source_key mtime_ns text).1 source_key
        = some mtime_ns := by
      by_cases h : lookupSource db source_key = some mtime_ns
      · rw [hresolve.1 h]
        exact h
      · rw [hresolve.2 h]
        exact lookupSource_reindex hash now db source_key mtime_ns text
    simp only [iterIndexFile,
      iterIndexFile_noop hash now source_key mtime_ns text n _ hlook, add_zero]
  · intro h
    rw [hresolve.2 h]
    exact ⟨(reindexFile_entries hash now db source_key mtime_ns text).1,
      (reindexFile_entries hash now db source_key mtime_ns text).2,
      lookupSource_reindex hash now db source_key mtime_ns text⟩

/-- Witness for C5: indexing a fresh file parses it once (deduplicating a
repeated paragraph and dropping a short chunk), and five consecutive calls
on the unchanged file perform exactly one reparse. -/
theorem c5_witness :
    lookupSource dbEmpty "MEMORY.md" ≠ some 7 ∧
    ((index_file hashId "t0" dbEmpty "MEMORY.md" 7 sampleNote).1.entries.filter
        (fun e => e.source_key == "MEMORY.md")
      = (if sampleNote = "" then [] else splitIntoChunks sampleNote).foldl
          (fun acc c => insertEntryOrIgnore acc (⟨"MEMORY.md", c, hashId c, "t0"⟩ : MemEntry))
          []) ∧
    (iterIndexFile hashId "t0" "MEMORY.md" 7 sampleNote 5 dbEmpty).2 = 1 := by
  refine ⟨by decide,
    ((c5_index_file_mtime_gate hashId "t0" dbEmpty "MEMORY.md" 7 sampleNote).2.2.2
      (by decide)).2.1, ?_⟩
  have h := (c5_index_file_mtime_gate hashId "t0" dbEmpty "MEMORY.md" 7 sampleNote).2.2.1 4
  rw [h]
  decide

theorem accumHits_budget : ∀ (hits : List MemoryHit) (total : Nat),
    accumHits hits total = [] ∨ total + hitsChars (accumHits hits total) ≤ 6000 := by
  intro hits
  induction hits with
  | nil => intro total; left; rfl
  | cons h t ih =>
    intro total
    unfold accumHits
    by_cases hb : 6000 < total + h.content.length
    · left
      rw [if_pos hb]
    · right
      rw [if_neg hb]
      rcases ih (total + h.content.length) with he | hle
      · rw [he]
        simp only [hitsChars, List.map_cons, List.map_nil, List.sum_cons, List.sum_nil]
        omega
      · simp only [hitsChars, List.map_cons, List.sum_cons] at hle ⊢
        omega

/-- C8: `get_memory_context` structure: for a query, the hits are
requested with limit 8 and today's file excluded, are accumulated in rank
order without the retrieved characters ever exceeding 6000, and if
anything accumulated the result is today's notes followed by a
"Relevant Memory" section; with no query, or nothing accumulated, the
entire long-term note file is injected verbatim ahead of today's notes. -/
theorem c8_memory_context_structure
    (search : String → Nat → List String → List MemoryHit)
    (todayFilename today longTerm : String) :
    (∀ q, hitsChars (accumHits (search q 8 [todayFilename]) 0) ≤ 6000) ∧
    (∀ q, q ≠ "" → search q 8 [todayFilename] ≠ [] →
      accumHits (search q 8 [todayFilename]) 0 ≠ [] →
      get_memory_context search todayFilename today longTerm (some q)
        = String.intercalate "\n\n"
            ((if today ≠ "" then ["## Today's Notes\n" ++ today] else []) ++
              ["## Relevant Memory\n" ++ String.intercalate "\n\n"
                ((accumHits (search q 8 [todayFilename]) 0).map fun hit =>
                  "[" ++ hit.source_key ++ "] " ++ hit.content)])) ∧
    (∀ q, q ≠ "" → accumHits (search q 8 [todayFilename]) 0 = [] →
      get_memory_context search todayFilename today longTerm (some q)
        = get_memory_context search todayFilename today longTerm none) ∧
    (get_memory_context search todayFilename today longTerm none
      = (let parts : List String :=
            if today ≠ "" then ["## Today's Notes\n" ++ today] else []
         let parts :=
            if longTerm ≠ "" then ("## Long-term Memory\n" ++ longTerm) :: parts else parts
         if parts ≠ [] then String.intercalate "\n\n" parts else "")) := by
  refine ⟨?_, ?_, ?_, rfl⟩
  · intro q
    rcases accumHits_budget (search q 8 [todayFilename]) 0 with he | hle
    · rw [he]
      simp [hitsChars]
    · omega
  · intro q hq hh ha
    have hm : ((accumHits (search q 8 [todayFilename]) 0).map fun hit =>
        "[" ++ hit.source_key ++ "] " ++ hit.content) ≠ [] := by
      simpa using ha
    unfold get_memory_context
    simp only [hq, if_true, hh, hm]
    rw [if_pos hq, if_pos hh, if_pos hm]
  · intro q hq ha
    have hm : ((accumHits (search q 8 [todayFilename]) 0).map fun hit =>
        "[" ++ hit.source_key ++ "] " ++ hit.content) = [] := by
      rw [ha, List.map_nil]
    simp [get_memory_context, hq, hm]

/-- Witness for C8: a single in-budget hit yields today's notes plus a
"Relevant Memory" section. -/
theorem c8_witness :
    ("docker" : String) ≠ "" ∧
    searchW "docker" 8 ["2025-10-12.md"] ≠ [] ∧
    accumHits (searchW "docker" 8 ["2025-10-12.md"]) 0 ≠ [] ∧
    get_memory_context searchW "2025-10-12.md" "today body" "long body" (some "docker")
      = String.intercalate "\n\n"
          ((if ("today body" : String) ≠ "" then ["## Today's Notes\n" ++ "today body"] else []) ++
            ["## Relevant Memory\n" ++ String.intercalate "\n\n"
              ((accumHits (searchW "docker" 8 ["2025-10-12.md"]) 0).map fun hit =>
                "[" ++ hit.source_key ++ "] " ++ hit.content)]) := by
  refine ⟨by decide, by decide, by decide, ?_⟩
  exact (c8_memory_context_structure searchW "2025-10-12.md" "today body" "long body").2.1
    "docker" (by decide) (by decide) (by decide)

end Nanobot
